import Mathlib

/-!
Verification of the quant-analytics pipeline (ingestion → resampling →
analytics → alerting) against its specification.

The Python backend is embedded shallowly:
* prices, quantities and metric values are modelled as exact rationals `ℚ`;
* timestamps are naturals (milliseconds since the epoch);
* a pandas `Series` becomes a list of (timestamp, value) pairs, or a plain
  `List ℚ` when only positions matter;
* NaN propagation is modelled with `Option ℚ` (`none` = non-finite);
* database tables become Lean lists of record rows, and SQL queries become
  list operations.
Every definition is translated from a named function of the source tree;
the doc comment of each definition points to its origin.
-/

namespace QuantApp

/-- A raw trade tick, as stored by `backend/database.py` (`TickData`) and
produced by `backend/websocket_client.py` (`_on_message`): symbol, timestamp
(milliseconds), price, quantity. -/
structure Tick where
  symbol : String
  ts : ℕ
  price : ℚ
  qty : ℚ
  deriving Repr, DecidableEq

/-- One OHLCV bar as produced by `DataResampler._resample_to_ohlcv`
(`backend/resampler.py`).  The source dataframe column `open` is called
`open_` here because `open` is a Lean keyword; `timestamp` is the bucket
start (left label of the pandas resample bucket). -/
structure Bar where
  timestamp : ℕ
  open_ : ℚ
  high : ℚ
  low : ℚ
  close : ℚ
  volume : ℚ
  deriving Repr, DecidableEq

/-- Maximum of a list of rationals (0 on the empty list, which the resampler
never feeds it: empty buckets are dropped by `dropna`). -/
def listMax : List ℚ → ℚ
  | [] => 0
  | [x] => x
  | x :: y :: xs => max x (listMax (y :: xs))

/-- Minimum of a list of rationals (0 on the empty list). -/
def listMin : List ℚ → ℚ
  | [] => 0
  | [x] => x
  | x :: y :: xs => min x (listMin (y :: xs))

/-- The pandas bucket index of a tick for a bucket width of `Δ`
milliseconds: `resample` groups timestamps by `floor(ts / Δ)`. -/
def bucketOf (Δ : ℕ) (t : Tick) : ℕ := t.ts / Δ

/-- The ticks of the input frame falling into bucket `b`
(timestamps in `[b*Δ, (b+1)*Δ)`), in frame order. -/
def ticksInBucket (ticks : List Tick) (Δ b : ℕ) : List Tick :=
  ticks.filter (fun t => bucketOf Δ t == b)

/-- The list of bucket indices that actually contain ticks.  `dedup`
removes duplicates; for a timestamp-sorted frame the result is sorted. -/
def bucketKeys (ticks : List Tick) (Δ : ℕ) : List ℕ :=
  (ticks.map (bucketOf Δ)).dedup

/-- The OHLCV aggregate of one non-empty bucket, mirroring
`df['price'].resample(tf).ohlc()` plus `df['quantity'].resample(tf).sum()`:
open = first price of the bucket (frame order = timestamp order for the
sorted frames the resampler builds), close = last, high/low = max/min,
volume = sum of quantities; the row label is the bucket start `b*Δ`. -/
def mkBar (Δ b : ℕ) (l : List Tick) : Bar :=
  { timestamp := b * Δ
    open_ := ((l.head?).map Tick.price).getD 0
    high := listMax (l.map Tick.price)
    low := listMin (l.map Tick.price)
    close := ((l.getLast?).map Tick.price).getD 0
    volume := (l.map Tick.qty).sum }

/-- Model of `DataResampler._resample_to_ohlcv` (`backend/resampler.py`, lines
47–61): resample the tick frame into OHLCV bars of width `Δ` milliseconds
(the pandas frequency string `"1s"` is `Δ = 1000`).  Buckets with no ticks
are dropped (`ohlcv = ohlcv.dropna()`), so exactly the non-empty buckets
yield bars. -/
def _resample_to_ohlcv (ticks : List Tick) (Δ : ℕ) : List Bar :=
  (bucketKeys ticks Δ).map (fun b => mkBar Δ b (ticksInBucket ticks Δ b))

theorem listMax_mem : ∀ l : List ℚ, l ≠ [] → listMax l ∈ l
  | [x], _ => by simp [listMax]
  | x :: y :: xs, _ => by
    have ih := listMax_mem (y :: xs) (by simp)
    by_cases h : x ≤ listMax (y :: xs)
    · simp only [listMax, max_eq_right h]
      exact List.mem_cons_of_mem x ih
    · simp [listMax, max_eq_left (le_of_not_le h)]

theorem le_listMax : ∀ l : List ℚ, ∀ x ∈ l, x ≤ listMax l
  | [x], y, hy => by simp at hy; simp [listMax, hy]
  | x :: y :: xs, z, hz => by
    rcases List.mem_cons.mp hz with h | h
    · simp [listMax, h]
    · have := le_listMax (y :: xs) z h
      simp only [listMax]
      exact le_max_of_le_right this

theorem listMin_mem : ∀ l : List ℚ, l ≠ [] → listMin l ∈ l
  | [x], _ => by simp [listMin]
  | x :: y :: xs, _ => by
    have ih := listMin_mem (y :: xs) (by simp)
    by_cases h : listMin (y :: xs) ≤ x
    · simp only [listMin, min_eq_right h]
      exact List.mem_cons_of_mem x ih
    · simp [listMin, min_eq_left (le_of_not_le h)]

theorem listMin_le : ∀ l : List ℚ, ∀ x ∈ l, listMin l ≤ x
  | [x], y, hy => by simp at hy; simp [listMin, hy]
  | x :: y :: xs, z, hz => by
    rcases List.mem_cons.mp hz with h | h
    · simp [listMin, h]
    · have := listMin_le (y :: xs) z h
      simp only [listMin]
      exact min_le_of_right_le this

/-- The tick set of the spec's end-to-end example: symbol "a", prices
[10, 10, 11, 9], quantities [1,1,1,1], at offsets 0.1s, 0.3s, 0.6s, 0.9s
(base time 0, timestamps in milliseconds). -/
def c1ExampleTicks : List Tick :=
  [⟨"a", 100, 10, 1⟩, ⟨"a", 300, 10, 1⟩, ⟨"a", 600, 11, 1⟩, ⟨"a", 900, 9, 1⟩]

theorem bucketKeys_ne_nil {ticks : List Tick} {Δ : ℕ} (h : ticks ≠ []) :
    bucketKeys ticks Δ ≠ [] := by
  simp only [bucketKeys, ne_eq, List.dedup_eq_nil, List.map_eq_nil_iff]
  exact h

theorem mem_bucketKeys {ticks : List Tick} {Δ b : ℕ}
    (h : b ∈ bucketKeys ticks Δ) : ∃ t ∈ ticks, bucketOf Δ t = b := by
  simp only [bucketKeys, List.mem_dedup, List.mem_map] at h
  exact h

theorem ticksInBucket_ne_nil {ticks : List Tick} {Δ b : ℕ}
    (h : b ∈ bucketKeys ticks Δ) : ticksInBucket ticks Δ b ≠ [] := by
  obtain ⟨t, ht, hb⟩ := mem_bucketKeys h
  have : t ∈ ticksInBucket ticks Δ b := by
    simp [ticksInBucket, List.mem_filter, ht, hb]
  exact List.ne_nil_of_mem this

theorem mem_resample {ticks : List Tick} {Δ : ℕ} (hΔ : 0 < Δ) {bar : Bar}
    (hbar : bar ∈ _resample_to_ohlcv ticks Δ) :
    ∃ b ∈ bucketKeys ticks Δ,
      bar = mkBar Δ b (ticksInBucket ticks Δ b) ∧ bar.timestamp / Δ = b := by
  simp only [_resample_to_ohlcv, List.mem_map] at hbar
  obtain ⟨b, hb, hbar⟩ := hbar
  refine ⟨b, hb, hbar.symm, ?_⟩
  subst hbar
  simp [mkBar, Nat.mul_div_cancel _ hΔ]

theorem pairwise_head_le {l : List Tick}
    (hl : l.Pairwise (fun a b => a.ts ≤ b.ts)) {a : Tick}
    (ha : l.head? = some a) : ∀ t ∈ l, a.ts ≤ t.ts := by
  cases l with
  | nil => simp at ha
  | cons x xs =>
    simp only [List.head?_cons, Option.some.injEq] at ha
    subst ha
    intro t ht
    rcases List.mem_cons.mp ht with h | h
    · simp [h]
    · exact (List.pairwise_cons.mp hl).1 t h

theorem pairwise_le_getLast : ∀ {l : List Tick},
    l.Pairwise (fun a b => a.ts ≤ b.ts) → ∀ {b : Tick},
    l.getLast? = some b → ∀ t ∈ l, t.ts ≤ b.ts := by
  intro l
  induction l with
  | nil => intro _ b hb; simp at hb
  | cons x xs ih =>
    intro hl b hb t ht
    cases xs with
    | nil =>
      simp only [List.getLast?_singleton, Option.some.injEq] at hb
      simp only [List.mem_singleton] at ht
      subst hb; subst ht; exact le_refl _
    | cons y ys =>
      have hb' : (y :: ys).getLast? = some b := by
        rw [← hb, List.getLast?_cons_cons]
      have hmem : b ∈ y :: ys := List.mem_of_mem_getLast? hb'
      rcases List.mem_cons.mp ht with h | h
      · subst h
        exact (List.pairwise_cons.mp hl).1 b hmem
      · exact ih (List.pairwise_cons.mp hl).2 hb' t h

/-- C1: for every non-empty timestamp-sorted tick set and every positive
bucket width, each bar produced by `_resample_to_ohlcv` aggregates exactly
the ticks of its bucket with open = first (earliest) price, high = max
price, low = min price, close = last (latest) price, volume = sum of
quantities; and the spec's concrete four-tick example resamples to exactly
one 1-second bar {open 10, high 11, low 9, close 9, volume 4}. -/
theorem c1_resample_ohlcv_correct (ticks : List Tick) (Δ : ℕ) (hΔ : 0 < Δ)
    (hne : ticks ≠ []) (hsorted : ticks.Pairwise (fun a b => a.ts ≤ b.ts)) :
    (_resample_to_ohlcv ticks Δ ≠ [] ∧
      ∀ bar ∈ _resample_to_ohlcv ticks Δ,
        (ticksInBucket ticks Δ (bar.timestamp / Δ) ≠ []) ∧
        ∃ tFirst tLast,
          (ticksInBucket ticks Δ (bar.timestamp / Δ)).head? = some tFirst ∧
          (ticksInBucket ticks Δ (bar.timestamp / Δ)).getLast? = some tLast ∧
          bar.open_ = tFirst.price ∧ bar.close = tLast.price ∧
          (∀ t ∈ ticksInBucket ticks Δ (bar.timestamp / Δ),
            tFirst.ts ≤ t.ts ∧ t.ts ≤ tLast.ts) ∧
          bar.high ∈ (ticksInBucket ticks Δ (bar.timestamp / Δ)).map Tick.price ∧
          (∀ p ∈ (ticksInBucket ticks Δ (bar.timestamp / Δ)).map Tick.price,
            p ≤ bar.high) ∧
          bar.low ∈ (ticksInBucket ticks Δ (bar.timestamp / Δ)).map Tick.price ∧
          (∀ p ∈ (ticksInBucket ticks Δ (bar.timestamp / Δ)).map Tick.price,
            bar.low ≤ p) ∧
          bar.volume = ((ticksInBucket ticks Δ (bar.timestamp / Δ)).map Tick.qty).sum) ∧
    _resample_to_ohlcv c1ExampleTicks 1000 =
      [{ timestamp := 0, open_ := 10, high := 11, low := 9, close := 9, volume := 4 }] := by
  refine ⟨⟨?_, ?_⟩, ?_⟩
  · simp only [_resample_to_ohlcv, ne_eq, List.map_eq_nil_iff]
    exact bucketKeys_ne_nil hne
  · intro bar hbar
    obtain ⟨b, hb, hbar, hts⟩ := mem_resample hΔ hbar
    rw [hts]
    set bt := ticksInBucket ticks Δ b with hbt
    have hbtne : bt ≠ [] := ticksInBucket_ne_nil hb
    have hbtpw : bt.Pairwise (fun a b => a.ts ≤ b.ts) :=
      hsorted.sublist (List.filter_sublist ticks)
    obtain ⟨tF, hF⟩ := Option.ne_none_iff_exists'.mp
      (fun h => hbtne (List.head?_eq_none_iff.mp h))
    obtain ⟨tL, hL⟩ := Option.ne_none_iff_exists'.mp
      (fun h => hbtne (List.getLast?_eq_none_iff.mp h))
    have hmapne : bt.map Tick.price ≠ [] := by
      simpa [List.map_eq_nil_iff] using hbtne
    refine ⟨hbtne, tF, tL, hF, hL, ?_, ?_, ?_, ?_, ?_, ?_, ?_, ?_⟩
    · rw [hbar]; simp [mkBar, hF]
    · rw [hbar]; simp [mkBar, hL]
    · intro t ht
      exact ⟨pairwise_head_le hbtpw hF t ht, pairwise_le_getLast hbtpw hL t ht⟩
    · rw [hbar]; exact listMax_mem _ hmapne
    · intro p hp; rw [hbar]; exact le_listMax _ p hp
    · rw [hbar]; exact listMin_mem _ hmapne
    · intro p hp; rw [hbar]; exact listMin_le _ p hp
    · rw [hbar]; rfl
  · norm_num [_resample_to_ohlcv, bucketKeys, bucketOf, ticksInBucket, mkBar,
      c1ExampleTicks, listMax, listMin, List.dedup]

/-- Witness for C1 at the spec's concrete example input. -/
theorem c1_resample_ohlcv_correct_witness :
    _resample_to_ohlcv c1ExampleTicks 1000 =
      [{ timestamp := 0, open_ := 10, high := 11, low := 9, close := 9, volume := 4 }] :=
  (c1_resample_ohlcv_correct c1ExampleTicks 1000 (by decide) (by decide)
    (by decide)).2

/-! ## Analytics engine: `compute_spread` (`backend/analytics.py`) -/

/-- A pandas price series: (timestamp, value) pairs indexed by timestamp. -/
abbrev Series := List (ℕ × ℚ)

/-- Model of `AnalyticsEngine.compute_spread` (`backend/analytics.py`, lines 85–92):
`common_idx = y.index.intersection(x.index)` followed by
`y.loc[common_idx] - hedge_ratio * x.loc[common_idx]` — keep exactly the
`y` entries whose timestamp also occurs in `x`, and map each to
`y[t] - hedge_ratio * x[t]`. -/
def compute_spread (y_series x_series : Series) (hedge_ratio : ℚ) : Series :=
  y_series.filterMap
    (fun p => (x_series.lookup p.1).map (fun xv => (p.1, p.2 - hedge_ratio * xv)))

theorem lookup_isSome_iff (l : Series) (t : ℕ) :
    (l.lookup t).isSome ↔ t ∈ l.map Prod.fst := by
  induction l with
  | nil => simp [List.lookup]
  | cons p rest ih =>
    by_cases h : t = p.1
    · simp [List.lookup, h]
    · have hbeq : (t == p.1) = false := beq_eq_false_iff_ne.mpr h
      simp only [List.lookup, hbeq, List.map_cons, List.mem_cons]
      rw [ih]
      constructor
      · exact fun hm => Or.inr hm
      · rintro (hm | hm)
        · exact absurd hm h
        · exact hm

/-- C2: the spread is defined exactly on the timestamps common to both
series (inner join) and at each common timestamp `t` it equals
`y[t] - hedge_ratio * x[t]`; a timestamp present in only one series does
not appear in the result. -/
theorem c2_compute_spread_correct (y_series x_series : Series) (hedge_ratio : ℚ) :
    (∀ t : ℕ, t ∈ (compute_spread y_series x_series hedge_ratio).map Prod.fst ↔
      (t ∈ y_series.map Prod.fst ∧ t ∈ x_series.map Prod.fst)) ∧
    (∀ t a b, y_series.lookup t = some a → x_series.lookup t = some b →
      (compute_spread y_series x_series hedge_ratio).lookup t =
        some (a - hedge_ratio * b)) := by
  constructor
  · intro t
    constructor
    · intro ht
      simp only [List.mem_map] at ht
      obtain ⟨q, hq, hqt⟩ := ht
      simp only [compute_spread, List.mem_filterMap] at hq
      obtain ⟨p, hp, hf⟩ := hq
      cases hx : x_series.lookup p.1 with
      | none => rw [hx] at hf; simp at hf
      | some xv =>
        rw [hx] at hf
        simp only [Option.map_some', Option.some.injEq] at hf
        have hpt : p.1 = t := by rw [← hf] at hqt; exact hqt
        subst hpt
        refine ⟨List.mem_map_of_mem Prod.fst hp, ?_⟩
        rw [← lookup_isSome_iff, hx]
        rfl
    · rintro ⟨hy, hx⟩
      simp only [List.mem_map] at hy
      obtain ⟨p, hp, hpt⟩ := hy
      rw [← lookup_isSome_iff] at hx
      cases hxl : x_series.lookup t with
      | none => rw [hxl] at hx; simp at hx
      | some xv =>
        have hmem : (t, p.2 - hedge_ratio * xv) ∈
            compute_spread y_series x_series hedge_ratio := by
          simp only [compute_spread, List.mem_filterMap]
          refine ⟨p, hp, ?_⟩
          rw [hpt, hxl]
          rfl
        exact List.mem_map_of_mem Prod.fst hmem
  · intro t a b hy hx
    induction y_series with
    | nil => simp [List.lookup] at hy
    | cons p rest ih =>
      obtain ⟨k, v⟩ := p
      by_cases h : t = k
      · subst h
        simp only [List.lookup, beq_self_eq_true, Option.some.injEq] at hy
        subst hy
        simp [compute_spread, List.filterMap_cons, hx, List.lookup]
      · have hbeq : (t == k) = false := beq_eq_false_iff_ne.mpr h
        simp only [List.lookup, hbeq] at hy
        have htail := ih hy
        simp only [compute_spread, List.filterMap_cons] at htail ⊢
        cases hk : List.lookup k x_series with
        | none => simpa using htail
        | some kv =>
          simp only [Option.map_some']
          simpa [List.lookup, hbeq] using htail

/-- Witness for C2 on concrete series: y = [(1,10),(2,20)],
x = [(2,4),(3,1)], hedge ratio 2: the spread at the common timestamp 2 is
20 − 2·4. -/
theorem c2_compute_spread_correct_witness :
    (compute_spread [(1, 10), (2, 20)] [(2, 4), (3, 1)] 2).lookup 2 =
      some (20 - 2 * 4) :=
  (c2_compute_spread_correct [(1, 10), (2, 20)] [(2, 4), (3, 1)] 2).2
    2 20 4 (by rfl) (by rfl)

/-! ## Analytics engine: `compute_z_score` (`backend/analytics.py`)

pandas float semantics are modelled with `Option ℚ`: `none` is a
non-finite value (NaN).  `rolling(window=w)` emits NaN at every position
with fewer than `w` observations, and `fillna(0)` replaces NaN by 0.
The square root inside `rolling(...).std()` is kept abstract as a
parameter `sqrtQ`; every theorem assumes only what the real square root
satisfies on the non-negative variance: `sqrtQ v = 0 ↔ v = 0`. -/

/-- The trailing window of (at most) `w` observations ending at position
`i`: `s[i+1-w .. i]`. -/
def rwindow (s : List ℚ) (w i : ℕ) : List ℚ := (s.take (i + 1)).drop (i + 1 - w)

/-- Model of `series.rolling(window=w).mean()` at position `i`: NaN (`none`) with
fewer than `w` observations, else the window average. -/
def rollingMean (s : List ℚ) (w i : ℕ) : Option ℚ :=
  if i + 1 < w then none else some ((rwindow s w i).sum / (w : ℚ))

/-- The variance under `series.rolling(window=w).std()` at position `i`
(pandas sample variance, `ddof = 1`): `Σ (x − mean)² / (w − 1)`. -/
def rollingVar (s : List ℚ) (w i : ℕ) : Option ℚ :=
  (rollingMean s w i).map
    (fun m => ((rwindow s w i).map (fun x => (x - m) ^ 2)).sum / ((w : ℚ) - 1))

/-- Model of `series.rolling(window=w).std()` at position `i`: the square root of
the rolling variance. -/
def rollingStd (sqrtQ : ℚ → ℚ) (s : List ℚ) (w i : ℕ) : Option ℚ :=
  (rollingVar s w i).map sqrtQ

/-- Float division with a zero denominator is non-finite.  In IEEE terms
`0/0` is NaN and `x/0` (`x ≠ 0`) is ±∞; only the NaN case is reachable
here, because a zero rolling std forces the numerator `s[i] − mean` to be
zero as well (proved in `c3_compute_z_score_correct`), and `fillna(0)`
turns that NaN into 0. -/
def divNaN (a b : ℚ) : Option ℚ := if b = 0 then none else some (a / b)

/-- The raw z-score `(series − rolling_mean) / rolling_std` at position
`i`, before `fillna(0)`. -/
def zAt (sqrtQ : ℚ → ℚ) (s : List ℚ) (w i : ℕ) : Option ℚ :=
  match rollingMean s w i, rollingStd sqrtQ s w i with
  | some m, some sd => divNaN (s.getD i 0 - m) sd
  | _, _ => none

/-- Model of `AnalyticsEngine.compute_z_score` (`backend/analytics.py`, lines
94–108): series shorter than the window yield an all-zero series of the
same index; otherwise the rolling z-score with `fillna(0)`. -/
def compute_z_score (sqrtQ : ℚ → ℚ) (s : List ℚ) (w : ℕ) : List ℚ :=
  if s.length < w then List.replicate s.length 0
  else (List.range s.length).map (fun i => (zAt sqrtQ s w i).getD 0)

theorem rwindow_length {s : List ℚ} {w i : ℕ} (hi : i < s.length)
    (hw : w ≤ i + 1) : (rwindow s w i).length = w := by
  simp only [rwindow, List.length_drop, List.length_take]
  omega

theorem sum_sq_nonneg (l : List ℚ) (m : ℚ) :
    0 ≤ (l.map (fun x => (x - m) ^ 2)).sum := by
  apply List.sum_nonneg
  intro x hx
  simp only [List.mem_map] at hx
  obtain ⟨y, _, hy⟩ := hx
  rw [← hy]
  exact sq_nonneg _

theorem sum_sq_eq_zero {l : List ℚ} {m : ℚ}
    (h : (l.map (fun x => (x - m) ^ 2)).sum = 0) : ∀ x ∈ l, x = m := by
  induction l with
  | nil => intro x hx; simp at hx
  | cons a rest ih =>
    simp only [List.map_cons, List.sum_cons] at h
    have h1 : (0 : ℚ) ≤ (a - m) ^ 2 := sq_nonneg _
    have h2 : (0 : ℚ) ≤ ((rest.map (fun x => (x - m) ^ 2)).sum) :=
      sum_sq_nonneg rest m
    have ha : (a - m) ^ 2 = 0 := by linarith
    have hrest : (rest.map (fun x => (x - m) ^ 2)).sum = 0 := by linarith
    intro x hx
    rcases List.mem_cons.mp hx with hx | hx
    · subst hx
      have := pow_eq_zero_iff (n := 2) (by norm_num) |>.mp ha
      linarith [sub_eq_zero.mp this]
    · exact ih hrest x hx

theorem getD_mem_rwindow {s : List ℚ} {w i : ℕ} (hi : i < s.length)
    (hw : 1 ≤ w) (hwi : w ≤ i + 1) : s.getD i 0 ∈ rwindow s w i := by
  have hlen : (rwindow s w i).length = w := rwindow_length hi hwi
  have hidx : w - 1 < (rwindow s w i).length := by omega
  have heq : (rwindow s w i).get ⟨w - 1, hidx⟩ = s.getD i 0 := by
    simp only [List.get_eq_getElem]
    simp only [rwindow]
    rw [List.getElem_drop, List.getElem_take]
    · rw [List.getD_eq_getElem _ _ (by omega)]
      congr 1
      omega
  rw [← heq]
  exact List.get_mem _ _ hidx

theorem rollingVar_nonneg {s : List ℚ} {w i : ℕ} {v : ℚ} (hw : 0 < w)
    (hv : rollingVar s w i = some v) : 0 ≤ v := by
  simp only [rollingVar, rollingMean, Option.map] at hv
  by_cases hlt : i + 1 < w
  · simp [hlt] at hv
  · simp only [hlt, if_false, Option.some.injEq] at hv
    rw [← hv]
    apply div_nonneg (sum_sq_nonneg _ _)
    have : (1 : ℚ) ≤ (w : ℚ) := by exact_mod_cast hw
    linarith

theorem numerator_zero_of_var_zero {s : List ℚ} {w i : ℕ} {m : ℚ}
    (hw : 0 < w) (hi : i < s.length) (hwi : w ≤ i + 1)
    (hm : rollingMean s w i = some m) (hv : rollingVar s w i = some 0) :
    s.getD i 0 - m = 0 := by
  simp only [rollingVar, hm, Option.map_some', Option.some.injEq] at hv
  rcases Nat.lt_or_ge w 2 with hw1 | hw2
  · -- w = 1: the window is the singleton [s[i]] and the mean is s[i].
    have hw1' : w = 1 := by omega
    subst hw1'
    have hlen : (rwindow s 1 i).length = 1 := rwindow_length hi hwi
    have hmem : s.getD i 0 ∈ rwindow s 1 i := getD_mem_rwindow hi le_rfl hwi
    obtain ⟨x, hx⟩ := List.length_eq_one.mp hlen
    rw [hx] at hmem
    simp only [List.mem_singleton] at hmem
    simp only [rollingMean, show ¬(i + 1 < 1) by omega, if_false,
      Option.some.injEq] at hm
    rw [hx] at hm
    simp only [List.sum_singleton, Nat.cast_one, div_one] at hm
    rw [hmem, hm]
    ring
  · -- w ≥ 2: zero variance forces every window element to equal the mean.
    have hne : ((w : ℚ) - 1) ≠ 0 := by
      have : (2 : ℚ) ≤ (w : ℚ) := by exact_mod_cast hw2
      linarith
    rcases div_eq_zero_iff.mp hv with hsum | habs
    · have hall := sum_sq_eq_zero hsum
      have hmem : s.getD i 0 ∈ rwindow s w i := getD_mem_rwindow hi (by omega) hwi
      have := hall _ hmem
      linarith
    · exact absurd habs hne

theorem zAt_getD_eq {sqrtQ : ℚ → ℚ} {s : List ℚ} {w : ℕ}
    (hlen : ¬ s.length < w) {i : ℕ} (hi : i < s.length) :
    (compute_z_score sqrtQ s w).getD i 0 = (zAt sqrtQ s w i).getD 0 := by
  simp only [compute_z_score, hlen, if_false]
  rw [List.getD_eq_getElem _ _ (by simpa using hi)]
  simp [hi]

theorem rwindow_replicate {n : ℕ} {c : ℚ} {w i : ℕ} (hi : i < n)
    (hw : w ≤ i + 1) : rwindow (List.replicate n c) w i = List.replicate w c := by
  simp only [rwindow, List.take_replicate, List.drop_replicate]
  congr 1
  omega

theorem zAt_of_under {sqrtQ : ℚ → ℚ} {s : List ℚ} {w i : ℕ}
    (h : i + 1 < w) : zAt sqrtQ s w i = none := by
  simp [zAt, rollingMean, h]

theorem rollingMean_flat {n : ℕ} {c : ℚ} {w i : ℕ} (hw : 0 < w) (hi : i < n)
    (hwi : w ≤ i + 1) : rollingMean (List.replicate n c) w i = some c := by
  have hwq : ((w : ℚ)) ≠ 0 := by exact_mod_cast hw.ne'
  simp only [rollingMean, show ¬(i + 1 < w) by omega, if_false,
    rwindow_replicate hi hwi, List.sum_replicate, Option.some.injEq,
    smul_eq_mul]
  field_simp

theorem zAt_flat {sqrtQ : ℚ → ℚ} (hsq0 : sqrtQ 0 = 0) {n : ℕ} {c : ℚ}
    {w i : ℕ} (hw : 0 < w) (hi : i < n) (hwi : w ≤ i + 1) :
    zAt sqrtQ (List.replicate n c) w i = none := by
  have hm := rollingMean_flat (c := c) hw hi hwi
  have hv : rollingVar (List.replicate n c) w i = some 0 := by
    simp [rollingVar, hm, rwindow_replicate hi hwi, List.map_replicate,
      List.sum_replicate]
  have hsd : rollingStd sqrtQ (List.replicate n c) w i = some 0 := by
    simp [rollingStd, hv, hsq0]
  simp [zAt, hm, hsd, divNaN]

theorem getD_replicate_zero {n i : ℕ} (hi : i < n) :
    (List.replicate n (0 : ℚ)).getD i 0 = 0 := by
  rw [List.getD_eq_getElem _ _ (by simpa using hi)]
  simp

/-- C3: the rolling z-score has the same length (index) as its input; a
series shorter than the window is all zeros; positions with fewer than
`w` observations are 0; a position whose rolling standard deviation is 0
is 0 (its numerator is also exactly 0, so the float division is `0/0`
= NaN, which `fillna(0)` maps to 0, never a leaked ±∞); and a perfectly
flat series yields the all-zero series. `sqrtQ` abstracts the square
root used by `rolling(...).std()`; the hypothesis `hsq` is the only
property used: on the non-negative variance it vanishes exactly at 0. -/
theorem c3_compute_z_score_correct (sqrtQ : ℚ → ℚ) (s : List ℚ) (w : ℕ)
    (hw : 0 < w) (hsq : ∀ q : ℚ, 0 ≤ q → (sqrtQ q = 0 ↔ q = 0)) :
    (compute_z_score sqrtQ s w).length = s.length ∧
    (s.length < w → compute_z_score sqrtQ s w = List.replicate s.length 0) ∧
    (∀ i, i < s.length → i + 1 < w → (compute_z_score sqrtQ s w).getD i 0 = 0) ∧
    (∀ i, i < s.length → rollingStd sqrtQ s w i = some 0 →
      (compute_z_score sqrtQ s w).getD i 0 = 0 ∧
      ∃ m, rollingMean s w i = some m ∧ s.getD i 0 - m = 0) ∧
    (∀ c : ℚ, s = List.replicate s.length c →
      compute_z_score sqrtQ s w = List.replicate s.length 0) := by
  refine ⟨?_, ?_, ?_, ?_, ?_⟩
  · by_cases h : s.length < w <;> simp [compute_z_score, h]
  · intro h
    simp [compute_z_score, h]
  · intro i hi hlt
    by_cases h : s.length < w
    · rw [show compute_z_score sqrtQ s w = List.replicate s.length 0 from by
        simp [compute_z_score, h]]
      exact getD_replicate_zero hi
    · rw [zAt_getD_eq h hi, zAt_of_under hlt]
      rfl
  · intro i hi hstd
    obtain ⟨v, hv, hsqv⟩ := Option.map_eq_some'.mp hstd
    have hv0 : v = 0 := (hsq v (rollingVar_nonneg hw hv)).mp hsqv
    subst hv0
    obtain ⟨m, hm, _⟩ := Option.map_eq_some'.mp hv
    have hwi : w ≤ i + 1 := by
      by_contra hlt
      simp [rollingMean, Nat.lt_of_not_le hlt] at hm
    have hnum : s.getD i 0 - m = 0 :=
      numerator_zero_of_var_zero hw hi hwi hm hv
    refine ⟨?_, m, hm, hnum⟩
    by_cases h : s.length < w
    · rw [show compute_z_score sqrtQ s w = List.replicate s.length 0 from by
        simp [compute_z_score, h]]
      exact getD_replicate_zero hi
    · rw [zAt_getD_eq h hi]
      simp [zAt, hm, hstd, divNaN]
  · intro c hs
    by_cases h : s.length < w
    · simp [compute_z_score, h]
    · obtain ⟨n, hn⟩ : ∃ n, s.length = n := ⟨s.length, rfl⟩
      rw [hn] at hs
      subst hs
      rw [List.length_replicate] at h ⊢
      rw [List.eq_replicate_iff]
      constructor
      · simp [compute_z_score, List.length_replicate, h]
      · intro b hb
        simp only [compute_z_score, List.length_replicate, h, if_false,
          List.mem_map, List.mem_range] at hb
        obtain ⟨i, hi, hzb⟩ := hb
        rcases Nat.lt_or_ge (i + 1) w with hlt | hge
        · rw [zAt_of_under hlt] at hzb
          exact hzb.symm
        · rw [zAt_flat ((hsq 0 le_rfl).mpr rfl) hw hi hge] at hzb
          exact hzb.symm

/-- Witness for C3: a flat 3-element series with window 2 (square root
instantiated with the identity, which satisfies the hypothesis) yields
the all-zero series. -/
theorem c3_compute_z_score_correct_witness :
    compute_z_score id (List.replicate 3 (3 : ℚ)) 2 = List.replicate 3 0 := by
  have h := (c3_compute_z_score_correct id (List.replicate 3 (3 : ℚ)) 2
    (by norm_num) (by intro q _; simp)).2.2.2.2 3 (by simp)
  simpa using h

/-! ## Resampler: `_save_resampled_data` (`backend/resampler.py`) -/

/-- One row of the `resampled_data` table (`backend/database.py`,
`ResampledData`), unique per (symbol, timeframe, timestamp). -/
structure ResampledRow where
  symbol : String
  timeframe : String
  timestamp : ℕ
  open_ : ℚ
  high : ℚ
  low : ℚ
  close : ℚ
  volume : ℚ
  deriving Repr, DecidableEq

/-- The unique key of a `resampled_data` row. -/
def rowKey (r : ResampledRow) : String × String × ℕ :=
  (r.symbol, r.timeframe, r.timestamp)

/-- The existence query of `_save_resampled_data`: is a row with this
(symbol, timeframe, timestamp) key already stored? -/
def keyExists (store : List ResampledRow) (k : String × String × ℕ) : Bool :=
  store.any (fun r => rowKey r == k)

/-- The `ResampledData(...)` record built from one OHLCV row. -/
def barRow (symbol timeframe : String) (b : Bar) : ResampledRow :=
  ⟨symbol, timeframe, b.timestamp, b.open_, b.high, b.low, b.close, b.volume⟩

/-- One iteration of the row loop of `_save_resampled_data`: skip the row
if its key exists (the query sees rows added earlier in the same loop via
session autoflush), else add it. -/
def saveStep (symbol timeframe : String) (acc : List ResampledRow) (b : Bar) :
    List ResampledRow :=
  if keyExists acc (symbol, timeframe, b.timestamp) then acc
  else acc ++ [barRow symbol timeframe b]

/-- Model of `DataResampler._save_resampled_data` (`backend/resampler.py`, lines
63–96): upsert every OHLCV row, keyed by (symbol, timeframe, timestamp),
skipping keys already present. -/
def _save_resampled_data (symbol timeframe : String) (ohlcv_df : List Bar)
    (store : List ResampledRow) : List ResampledRow :=
  ohlcv_df.foldl (saveStep symbol timeframe) store

theorem save_cons (symbol timeframe : String) (b : Bar) (bs : List Bar)
    (st : List ResampledRow) :
    _save_resampled_data symbol timeframe (b :: bs) st =
      _save_resampled_data symbol timeframe bs (saveStep symbol timeframe st b) :=
  rfl

theorem save_extends (symbol timeframe : String) (bars : List Bar) :
    ∀ st : List ResampledRow,
      ∃ ext, _save_resampled_data symbol timeframe bars st = st ++ ext := by
  induction bars with
  | nil => intro st; exact ⟨[], by simp [_save_resampled_data]⟩
  | cons b bs ih =>
    intro st
    rw [save_cons]
    obtain ⟨ext, hext⟩ := ih (saveStep symbol timeframe st b)
    rw [hext]
    by_cases h : keyExists st (symbol, timeframe, b.timestamp)
    · exact ⟨ext, by simp [saveStep, h]⟩
    · exact ⟨barRow symbol timeframe b :: ext, by simp [saveStep, h]⟩

theorem keyExists_append_left {st ext : List ResampledRow}
    {k : String × String × ℕ} (h : keyExists st k = true) :
    keyExists (st ++ ext) k = true := by
  simp only [keyExists, List.any_append, Bool.or_eq_true]
  exact Or.inl h

theorem keyExists_save (symbol timeframe : String) (bars : List Bar)
    (st : List ResampledRow) {k : String × String × ℕ}
    (h : keyExists st k = true) :
    keyExists (_save_resampled_data symbol timeframe bars st) k = true := by
  obtain ⟨ext, hext⟩ := save_extends symbol timeframe bars st
  rw [hext]
  exact keyExists_append_left h

theorem keyExists_saveStep (symbol timeframe : String) (b : Bar)
    (st : List ResampledRow) :
    keyExists (saveStep symbol timeframe st b)
      (symbol, timeframe, b.timestamp) = true := by
  by_cases h : keyExists st (symbol, timeframe, b.timestamp)
  · simp only [saveStep]
    rw [if_pos h]
    exact h
  · simp only [saveStep]
    rw [if_neg h]
    simp [keyExists, List.any_append, barRow, rowKey]

theorem all_keys_in_save (symbol timeframe : String) (bars : List Bar) :
    ∀ st : List ResampledRow, ∀ b ∈ bars,
      keyExists (_save_resampled_data symbol timeframe bars st)
        (symbol, timeframe, b.timestamp) = true := by
  induction bars with
  | nil => intro st b hb; simp at hb
  | cons b bs ih =>
    intro st b' hb'
    rw [save_cons]
    rcases List.mem_cons.mp hb' with hb' | hb'
    · subst hb'
      exact keyExists_save symbol timeframe bs _
        (keyExists_saveStep symbol timeframe b' st)
    · exact ih (saveStep symbol timeframe st b) b' hb'

theorem save_of_all_present (symbol timeframe : String) (bars : List Bar) :
    ∀ st : List ResampledRow,
      (∀ b ∈ bars, keyExists st (symbol, timeframe, b.timestamp) = true) →
      _save_resampled_data symbol timeframe bars st = st := by
  induction bars with
  | nil => intro st _; rfl
  | cons b bs ih =>
    intro st h
    rw [save_cons]
    have hb : saveStep symbol timeframe st b = st := by
      simp [saveStep, h b (List.mem_cons_self b bs)]
    rw [hb]
    exact ih st (fun b' hb' => h b' (List.mem_cons_of_mem b hb'))

theorem save_nodup_keys (symbol timeframe : String) (bars : List Bar) :
    ∀ st : List ResampledRow, (st.map rowKey).Nodup →
      ((_save_resampled_data symbol timeframe bars st).map rowKey).Nodup := by
  induction bars with
  | nil => intro st h; exact h
  | cons b bs ih =>
    intro st h
    rw [save_cons]
    apply ih
    by_cases hk : keyExists st (symbol, timeframe, b.timestamp)
    · simpa [saveStep, hk] using h
    · simp only [saveStep]
      rw [if_neg hk, List.map_append, List.nodup_append]
      refine ⟨h, List.nodup_singleton _, ?_⟩
      intro k hk1 hk2
      simp only [List.map_cons, List.map_nil, List.mem_singleton] at hk2
      subst hk2
      simp only [List.mem_map] at hk1
      obtain ⟨r, hr, hrk⟩ := hk1
      have : keyExists st (symbol, timeframe, b.timestamp) = true := by
        simp only [keyExists, List.any_eq_true]
        exact ⟨r, hr, by simpa [rowKey, barRow, Prod.ext_iff] using hrk⟩
      exact absurd this (by simp [hk])

/-- C4: re-running the bar upsert over an identical bar set leaves the
store unchanged (idempotence); a run never removes or overwrites existing
rows (the old store is a prefix of the new one); and key uniqueness of
(symbol, timeframe, bucket-start timestamp) is preserved. -/
theorem c4_save_resampled_idempotent (symbol timeframe : String)
    (ohlcv_df : List Bar) (store : List ResampledRow) :
    _save_resampled_data symbol timeframe ohlcv_df
        (_save_resampled_data symbol timeframe ohlcv_df store) =
      _save_resampled_data symbol timeframe ohlcv_df store ∧
    (∃ ext, _save_resampled_data symbol timeframe ohlcv_df store =
      store ++ ext) ∧
    ((store.map rowKey).Nodup →
      ((_save_resampled_data symbol timeframe ohlcv_df store).map rowKey).Nodup) := by
  refine ⟨?_, save_extends symbol timeframe ohlcv_df store,
    save_nodup_keys symbol timeframe ohlcv_df store⟩
  exact save_of_all_present symbol timeframe ohlcv_df _
    (all_keys_in_save symbol timeframe ohlcv_df store)

/-- Witness for C4 on a concrete one-bar save into an empty store. -/
theorem c4_save_resampled_idempotent_witness :
    ((_save_resampled_data "btcusdt" "1s"
      [{ timestamp := 0, open_ := 10, high := 11, low := 9, close := 9,
         volume := 4 }] []).map rowKey).Nodup :=
  (c4_save_resampled_idempotent "btcusdt" "1s"
    [{ timestamp := 0, open_ := 10, high := 11, low := 9, close := 9,
       volume := 4 }] []).2.2 (by simp)

/-! ## Ingestion: `BinanceWebSocketClient` (`backend/websocket_client.py`) -/

/-- The per-symbol ingestion state of `BinanceWebSocketClient`: the
in-memory ring buffer `tick_buffer[symbol]` (a `deque(maxlen=1000)`) and
the rows persisted to the `tick_data` table by `_save_to_db`. -/
structure IngestState where
  tick_buffer : List Tick
  db : List Tick
  deriving Repr, DecidableEq

/-- Model of `deque(maxlen=m).append(x)`: append, evicting the oldest entries so
that at most `m` remain. -/
def dequeAppend (m : ℕ) (q : List Tick) (x : Tick) : List Tick :=
  (q ++ [x]).drop ((q ++ [x]).length - m)

/-- Model of `BinanceWebSocketClient._on_message` (`backend/websocket_client.py`,
lines 52–84), restricted to one subscribed symbol: append the parsed tick
to the bounded buffer, then persist it to the database iff the buffer
length is now divisible by 10 (`if len(self.tick_buffer[symbol]) % 10 ==
0`; the code comment says "every 10th tick to reduce I/O"). -/
def _on_message (st : IngestState) (t : Tick) : IngestState :=
  let buf := dequeAppend 1000 st.tick_buffer t
  { tick_buffer := buf
    db := if buf.length % 10 == 0 then st.db ++ [t] else st.db }

/-- A stream of trade messages for one symbol, processed in order. -/
def processTicks (st : IngestState) (ts : List Tick) : IngestState :=
  ts.foldl _on_message st

/-- The number of ticks the code persists after `n` messages from a fresh
client (proved as such in `processTicks_spec`): one more whenever the
buffer length `min (n+1) 1000` is divisible by 10. -/
def dbLenAfter : ℕ → ℕ
  | 0 => 0
  | n + 1 => dbLenAfter n + (if (min (n + 1) 1000) % 10 = 0 then 1 else 0)

theorem dequeAppend_length (m : ℕ) (q : List Tick) (x : Tick) :
    (dequeAppend m q x).length = min (q.length + 1) m := by
  simp only [dequeAppend, List.length_drop, List.length_append,
    List.length_singleton]
  omega

theorem processTicks_spec (t0 : Tick) : ∀ n : ℕ,
    (processTicks ⟨[], []⟩ (List.replicate n t0)).tick_buffer.length =
      min n 1000 ∧
    (processTicks ⟨[], []⟩ (List.replicate n t0)).db.length = dbLenAfter n := by
  intro n
  induction n with
  | zero => constructor <;> rfl
  | succ n ih =>
    obtain ⟨hbuf, hdb⟩ := ih
    have hrep : List.replicate (n + 1) t0 = List.replicate n t0 ++ [t0] :=
      List.replicate_succ' n t0
    have hfold : processTicks ⟨[], []⟩ (List.replicate (n + 1) t0) =
        _on_message (processTicks ⟨[], []⟩ (List.replicate n t0)) t0 := by
      rw [processTicks, hrep, List.foldl_append]
      rfl
    rw [hfold]
    set st := processTicks ⟨[], []⟩ (List.replicate n t0) with hst
    have hblen : (dequeAppend 1000 st.tick_buffer t0).length = min (n + 1) 1000 := by
      rw [dequeAppend_length, hbuf]
      omega
    constructor
    · simpa [_on_message] using hblen
    · simp only [_on_message, dbLenAfter]
      rw [hblen]
      by_cases h : (min (n + 1) 1000) % 10 = 0
      · simp [h, hdb]
      · simp [h, hdb]

/-- The concrete trade message used for the C5 run. -/
def c5Tick : Tick := ⟨"btcusdt", 0, 1, 1⟩

set_option maxRecDepth 100000 in
/-- C5 (counter-evidence): from a fresh client, the first 1000 messages
persist exactly 100 ticks (every 10th, as the code's own comment says) —
but the 1001st and 1002nd messages are each persisted as well, although
they are only the 1st and 2nd ticks since the previous persisted one:
once the `deque(maxlen=1000)` buffer is full its length stays 1000, and
`1000 % 10 == 0` holds for every subsequent message, so every tick is
written from then on. -/
theorem c5_sampling_breaks_after_buffer_full :
    (processTicks ⟨[], []⟩ (List.replicate 1000 c5Tick)).db.length = 100 ∧
    (processTicks ⟨[], []⟩ (List.replicate 1001 c5Tick)).db.length = 101 ∧
    (processTicks ⟨[], []⟩ (List.replicate 1002 c5Tick)).db.length = 102 := by
  refine ⟨?_, ?_, ?_⟩
  · rw [(processTicks_spec c5Tick 1000).2]
    decide
  · rw [(processTicks_spec c5Tick 1001).2]
    decide
  · rw [(processTicks_spec c5Tick 1002).2]
    decide

/-- The multi-symbol in-memory buffer map `tick_buffer` of
`BinanceWebSocketClient` (keys are lowercased symbols). -/
structure WSClient where
  tick_buffer : List (String × List Tick)

/-- Python's `str.lower()`, character by character (kernel-reducible,
unlike `String.toLower`). -/
def pyLower (s : String) : String := ⟨s.data.map Char.toLower⟩

/-- Model of `BinanceWebSocketClient.get_recent_ticks` (`backend/websocket_client.py`,
lines 147–152): lowercase the symbol, return `[]` for an unknown symbol,
else the Python slice `list(buffer)[-limit:]` — which is the WHOLE buffer
when `limit = 0` (since `-0 == 0`), and the last `limit` elements
otherwise. -/
def get_recent_ticks (c : WSClient) (symbol : String) (limit : ℕ) : List Tick :=
  match c.tick_buffer.lookup (pyLower symbol) with
  | none => []
  | some buf => if limit = 0 then buf else buf.drop (buf.length - limit)

/-- The two-tick buffer used for the C9 counterexample. -/
def c9Client : WSClient :=
  ⟨[("a", [⟨"a", 1, 1, 1⟩, ⟨"a", 2, 1, 1⟩])]⟩

/-- C9 counterexample: with `limit = 0` and a two-tick buffer,
`get_recent_ticks` returns the entire buffer (2 ticks), not "at most
`limit` (= 0)" ticks as the claim states for every `limit ≥ 0`:
Python's `list(buffer)[-0:]` is the whole list. -/
theorem c9_limit_zero_counterexample :
    (get_recent_ticks c9Client "a" 0).length = 2 ∧
    ¬ ((get_recent_ticks c9Client "a" 0).length ≤ 0) := by
  constructor
  · rfl
  · intro h
    simp only [show (get_recent_ticks c9Client "a" 0).length = 2 from rfl] at h
    omega

/-- C9 (amended): for every `limit ≥ 1`, `get_recent_ticks` returns an
ordered suffix (the most recently buffered ticks, oldest-to-newest) of
the symbol's buffer of length at most `limit` (possibly fewer), and `[]`
for an unknown symbol; `limit = 0` instead returns the whole buffer. -/
theorem c9_get_recent_ticks_amended (c : WSClient) (symbol : String)
    (limit : ℕ) (hl : 1 ≤ limit) :
    (∀ buf, c.tick_buffer.lookup (pyLower symbol) = some buf →
      (get_recent_ticks c symbol limit).length ≤ limit ∧
      (get_recent_ticks c symbol limit) <:+ buf) ∧
    (c.tick_buffer.lookup (pyLower symbol) = none →
      get_recent_ticks c symbol limit = []) := by
  constructor
  · intro buf hbuf
    have hne : limit ≠ 0 := by omega
    simp only [get_recent_ticks, hbuf, hne, if_false]
    constructor
    · simp only [List.length_drop]
      omega
    · exact List.drop_suffix _ _
  · intro hnone
    simp [get_recent_ticks, hnone]

/-- Witness for C9 (amended) at the concrete two-tick buffer with
`limit = 1`. -/
theorem c9_get_recent_ticks_amended_witness :
    (get_recent_ticks c9Client "a" 1).length ≤ 1 ∧
    (get_recent_ticks c9Client "a" 1) <:+ [⟨"a", 1, 1, 1⟩, ⟨"a", 2, 1, 1⟩] :=
  (c9_get_recent_ticks_amended c9Client "a" 1 (by omega)).1
    [⟨"a", 1, 1, 1⟩, ⟨"a", 2, 1, 1⟩] (by rfl)

/-! ## Analytics engine: `perform_adf_test` (`backend/analytics.py`) -/

/-- The raw outcome of `statsmodels.adfuller` as consumed by
`perform_adf_test`: test statistic (`result[0]`), p-value (`result[1]`)
and critical values (`result[4]`).  The statistical routine itself is an
external library call; it is kept abstract as a function parameter, with
`none` modelling its exception path. -/
structure AdfOutcome where
  statistic : ℚ
  pvalue : ℚ
  critical_values : List (String × ℚ)
  deriving Repr, DecidableEq

/-- The dictionary returned by `perform_adf_test`. -/
structure AdfResult where
  statistic : ℚ
  pvalue : ℚ
  critical_values : List (String × ℚ)
  is_stationary : Bool
  deriving Repr, DecidableEq

/-- Model of `config.ADF_SIGNIFICANCE` (`src/config.py`, line 30) = 0.05. -/
def ADF_SIGNIFICANCE : ℚ := 5 / 100

/-- Model of `series.dropna()`: drop the non-finite entries. -/
def dropna (s : List (Option ℚ)) : List ℚ := s.filterMap id

/-- Model of `AnalyticsEngine.perform_adf_test` (`backend/analytics.py`, lines
130–158): a series shorter than 10 short-circuits to the degenerate
result {statistic 0, pvalue 1, no critical values, not stationary}
without invoking the test; otherwise `adfuller` runs on the NaN-free
series and `is_stationary := pvalue < ADF_SIGNIFICANCE`; an exception
inside the test also yields the degenerate result. -/
def perform_adf_test (adfuller : List ℚ → Option AdfOutcome)
    (series : List (Option ℚ)) : AdfResult :=
  if series.length < 10 then ⟨0, 1, [], false⟩
  else
    match adfuller (dropna series) with
    | some r => ⟨r.statistic, r.pvalue, r.critical_values,
        decide (r.pvalue < ADF_SIGNIFICANCE)⟩
    | none => ⟨0, 1, [], false⟩

/-- C6: a series of length < 10 yields exactly
{statistic 0, pvalue 1, critical_values empty, is_stationary false},
independently of the underlying test routine (it is not invoked); for a
series of length ≥ 10 on which the test succeeds, `is_stationary` holds
iff the returned p-value is strictly below the 0.05 threshold, and the
statistic/p-value are passed through unchanged. -/
theorem c6_perform_adf_test_correct (adfuller : List ℚ → Option AdfOutcome)
    (series : List (Option ℚ)) :
    (series.length < 10 →
      perform_adf_test adfuller series = ⟨0, 1, [], false⟩ ∧
      ∀ adfuller', perform_adf_test adfuller series =
        perform_adf_test adfuller' series) ∧
    (10 ≤ series.length → ∀ r, adfuller (dropna series) = some r →
      ((perform_adf_test adfuller series).is_stationary = true ↔
        r.pvalue < ADF_SIGNIFICANCE) ∧
      (perform_adf_test adfuller series).pvalue = r.pvalue ∧
      (perform_adf_test adfuller series).statistic = r.statistic) := by
  constructor
  · intro hshort
    constructor
    · simp [perform_adf_test, hshort]
    · intro adfuller'
      simp [perform_adf_test, hshort]
  · intro hlong r hr
    have hns : ¬ series.length < 10 := by omega
    refine ⟨?_, ?_, ?_⟩ <;> simp [perform_adf_test, hns, hr]

/-- Witness for C6: a 2-element series short-circuits to the degenerate
result, and a 10-element series with a succeeding test of p-value 0.01
is reported stationary (0.01 < 0.05). -/
theorem c6_perform_adf_test_correct_witness :
    perform_adf_test (fun _ => none) (List.replicate 2 (some 1)) =
      ⟨0, 1, [], false⟩ ∧
    ((perform_adf_test (fun _ => some ⟨-3, 1 / 100, []⟩)
        (List.replicate 10 (some 1))).is_stationary = true ↔
      (1 / 100 : ℚ) < ADF_SIGNIFICANCE) :=
  ⟨((c6_perform_adf_test_correct (fun _ => none)
      (List.replicate 2 (some 1))).1 (by simp)).1,
   ((c6_perform_adf_test_correct (fun _ => some ⟨-3, 1 / 100, []⟩)
      (List.replicate 10 (some 1))).2 (by simp) ⟨-3, 1 / 100, []⟩ rfl).1⟩

/-! ## Alerts (`backend/alerts.py`) -/

/-- Model of `Alert` (`backend/alerts.py`, lines 10–28): name, condition string,
metric name, threshold, symbol pair, enabled flag, trigger bookkeeping.
`last_triggered` is `None` until the first trigger; trigger times are
naturals (milliseconds). -/
structure Alert where
  name : String
  condition : String
  metric : String
  threshold : ℚ
  symbol_pair : String
  enabled : Bool
  triggered_count : ℕ
  last_triggered : Option ℕ
  deriving Repr, DecidableEq

/-- Model of `Alert.check` (`backend/alerts.py`, lines 29–45): a disabled alert
never matches; otherwise dispatch on the condition string ('greater',
'less', 'equal', 'greater_equal', 'less_equal', in source order), with
'equal' meaning `|value − threshold| < 0.001`; an unknown condition
string never matches. -/
def Alert.check (a : Alert) (value : ℚ) : Bool :=
  if !a.enabled then false
  else if a.condition == "greater" then decide (value > a.threshold)
  else if a.condition == "less" then decide (value < a.threshold)
  else if a.condition == "equal" then decide (|value - a.threshold| < 1 / 1000)
  else if a.condition == "greater_equal" then decide (value ≥ a.threshold)
  else if a.condition == "less_equal" then decide (value ≤ a.threshold)
  else false

/-- The preset-style alert used in the spec's strictness example:
condition 'greater', threshold 2.0, enabled. -/
def c7Alert : Alert :=
  ⟨"High Z-Score", "greater", "current_z_score", 2, "a_b", true, 0, none⟩

/-- C7: the alert condition semantics — 'greater' is strict >, 'less' is
strict <, 'greater_equal' is ≥, 'less_equal' is ≤, 'equal' is
`|value − threshold| < 0.001`, and a disabled alert never matches; in
particular a 'greater' alert with threshold 2.0 triggers at value 2.0001
and not at exactly 2.0. -/
theorem c7_alert_check_correct (a : Alert) (value : ℚ) :
    (a.enabled = false → a.check value = false) ∧
    (a.enabled = true →
      (a.condition = "greater" → (a.check value = true ↔ value > a.threshold)) ∧
      (a.condition = "less" → (a.check value = true ↔ value < a.threshold)) ∧
      (a.condition = "greater_equal" →
        (a.check value = true ↔ value ≥ a.threshold)) ∧
      (a.condition = "less_equal" →
        (a.check value = true ↔ value ≤ a.threshold)) ∧
      (a.condition = "equal" →
        (a.check value = true ↔ |value - a.threshold| < 1 / 1000))) ∧
    c7Alert.check (20001 / 10000) = true ∧ c7Alert.check 2 = false := by
  refine ⟨?_, ?_, ?_, ?_⟩
  · intro h
    simp [Alert.check, h]
  · intro he
    refine ⟨?_, ?_, ?_, ?_, ?_⟩ <;> intro hc <;> simp [Alert.check, he, hc]
  · norm_num [Alert.check, c7Alert]
  · norm_num [Alert.check, c7Alert]

/-- Witness for C7: the 'greater' threshold-2.0 alert triggers at 2.0001
(via the theorem's strict-> characterisation). -/
theorem c7_alert_check_correct_witness :
    c7Alert.check (20001 / 10000) = true :=
  (((c7_alert_check_correct c7Alert (20001 / 10000)).2.1 rfl).1 rfl).mpr
    (by norm_num [c7Alert])

/-- Model of `AlertEvent`: the history entry appended by `check_alerts`
(`backend/alerts.py`, lines 126–135). -/
structure AlertEvent where
  timestamp : ℕ
  alert_name : String
  metric : String
  value : ℚ
  threshold : ℚ
  condition : String
  symbol_pair : String
  deriving Repr, DecidableEq

/-- Model of `AlertManager` (`backend/alerts.py`, lines 67–75): the alert list,
the bounded event history, and `max_history = 100`.  Registered callbacks
are side-effecting functions; `check_alerts` is modelled to also return
the list of events that is passed to every callback. -/
structure AlertManager where
  alerts : List Alert
  alert_history : List AlertEvent
  max_history : ℕ := 100
  deriving Repr, DecidableEq

/-- One `key=value` item of the `**kwargs` of `update_alert`: a
constructor per attribute the `Alert` object actually has (for which
`hasattr` is true), plus `unknown` for any other field name (for which
`hasattr` is false). -/
inductive FieldUpdate where
  | name (v : String)
  | condition (v : String)
  | metric (v : String)
  | threshold (v : ℚ)
  | symbol_pair (v : String)
  | enabled (v : Bool)
  | triggered_count (v : ℕ)
  | last_triggered (v : Option ℕ)
  | unknown (field : String)
  deriving Repr, DecidableEq

/-- Model of `if hasattr(alert, key): setattr(alert, key, value)`: every existing
attribute is set; an unknown field is silently skipped. -/
def applyField (a : Alert) : FieldUpdate → Alert
  | .name v => { a with name := v }
  | .condition v => { a with condition := v }
  | .metric v => { a with metric := v }
  | .threshold v => { a with threshold := v }
  | .symbol_pair v => { a with symbol_pair := v }
  | .enabled v => { a with enabled := v }
  | .triggered_count v => { a with triggered_count := v }
  | .last_triggered v => { a with last_triggered := v }
  | .unknown _ => a

/-- Mutate the first alert with the given name in place (`get_alert`
returns the first match; `update_alert` mutates that object inside the
manager's list). -/
def updateFirstNamed (nm : String) (f : Alert → Alert) :
    List Alert → List Alert
  | [] => []
  | a :: rest =>
    if a.name == nm then f a :: rest else a :: updateFirstNamed nm f rest

/-- Model of `AlertManager.update_alert` (`backend/alerts.py`, lines 93–100): find
the alert by name (no-op when absent), then apply every kwarg whose key
is an existing attribute via `setattr`. -/
def update_alert (mgr : AlertManager) (alert_name : String)
    (kwargs : List FieldUpdate) : AlertManager :=
  let setAll := fun a => kwargs.foldl applyField a
  { mgr with alerts := updateFirstNamed alert_name setAll mgr.alerts }

/-- The one-alert manager of the C8 counterexample. -/
def c8Mgr : AlertManager :=
  ⟨[⟨"a", "greater", "z_score", 1, "p", true, 0, none⟩], [], 100⟩

/-- C8 counterexample: `update_alert` does NOT reject the fields the
claim says are immutable — an update naming `name` renames the alert,
and one naming `triggered_count` overwrites the trigger counter, because
the code guards `setattr` only with `hasattr`, which is true for every
`Alert` attribute. -/
theorem c8_update_alert_counterexample :
    (update_alert c8Mgr "a" [FieldUpdate.name "b"]).alerts.map Alert.name =
      ["b"] ∧
    (update_alert c8Mgr "a"
      [FieldUpdate.triggered_count 99]).alerts.map Alert.triggered_count =
      [99] := by
  constructor <;> rfl

theorem foldl_applyField_unknown : ∀ (kwargs : List FieldUpdate) (a : Alert),
    (∀ kw ∈ kwargs, ∃ f, kw = FieldUpdate.unknown f) →
    kwargs.foldl applyField a = a := by
  intro kwargs
  induction kwargs with
  | nil => intro a _; rfl
  | cons kw rest ih =>
    intro a h
    obtain ⟨f, hf⟩ := h kw (List.mem_cons_self kw rest)
    subst hf
    simp only [List.foldl_cons, applyField]
    exact ih a (fun kw' hkw' => h kw' (List.mem_cons_of_mem _ hkw'))

theorem updateFirstNamed_id (nm : String) (f : Alert → Alert) :
    ∀ l : List Alert, (∀ a ∈ l, f a = a) → updateFirstNamed nm f l = l := by
  intro l
  induction l with
  | nil => intro _; rfl
  | cons a rest ih =>
    intro h
    by_cases hn : a.name == nm
    · simp [updateFirstNamed, hn, h a (List.mem_cons_self a rest)]
    · simp only [updateFirstNamed, hn, if_false, Bool.false_eq_true,
        List.cons.injEq, true_and]
      exact ih (fun a' ha' => h a' (List.mem_cons_of_mem _ ha'))

theorem updateFirstNamed_of_not_found (nm : String) (f : Alert → Alert) :
    ∀ l : List Alert, (∀ a ∈ l, a.name ≠ nm) → updateFirstNamed nm f l = l := by
  intro l
  induction l with
  | nil => intro _; rfl
  | cons a rest ih =>
    intro h
    have hn : (a.name == nm) = false :=
      beq_eq_false_iff_ne.mpr (h a (List.mem_cons_self a rest))
    simp only [updateFirstNamed, hn, Bool.false_eq_true, if_false,
      List.cons.injEq, true_and]
    exact ih (fun a' ha' => h a' (List.mem_cons_of_mem _ ha'))

theorem updateFirstNamed_length (nm : String) (f : Alert → Alert) :
    ∀ l : List Alert, (updateFirstNamed nm f l).length = l.length := by
  intro l
  induction l with
  | nil => rfl
  | cons a rest ih =>
    by_cases hn : a.name == nm <;>
      simp [updateFirstNamed, hn, ih]

/-- C8 (amended): `update_alert` mutates any field that is an existing
attribute of the alert — including `name`, `symbol_pair`,
`triggered_count` and `last_triggered`, not only the four enumerated ones
— while a field that is not an attribute is silently ignored; a request
naming only non-attribute fields, or naming a nonexistent alert, leaves
the manager unchanged, and the update never changes the history or the
number of alerts. -/
theorem c8_update_alert_amended (mgr : AlertManager) (alert_name : String)
    (kwargs : List FieldUpdate) :
    ((∀ kw ∈ kwargs, ∃ f, kw = FieldUpdate.unknown f) →
      update_alert mgr alert_name kwargs = mgr) ∧
    ((∀ a ∈ mgr.alerts, a.name ≠ alert_name) →
      update_alert mgr alert_name kwargs = mgr) ∧
    (update_alert mgr alert_name kwargs).alert_history = mgr.alert_history ∧
    (update_alert mgr alert_name kwargs).alerts.length = mgr.alerts.length ∧
    (∀ a : Alert, ∀ s : String,
      (applyField a (.name s)).name = s ∧
      (applyField a (.symbol_pair s)).symbol_pair = s ∧
      applyField a (.unknown s) = a) ∧
    (∀ a : Alert, ∀ n : ℕ,
      (applyField a (.triggered_count n)).triggered_count = n ∧
      (applyField a (.last_triggered (some n))).last_triggered = some n) := by
  refine ⟨?_, ?_, rfl, updateFirstNamed_length _ _ _, ?_, ?_⟩
  · intro h
    have : ∀ a ∈ mgr.alerts, kwargs.foldl applyField a = a :=
      fun a _ => foldl_applyField_unknown kwargs a h
    simp only [update_alert, updateFirstNamed_id _ _ _ this]
  · intro h
    simp only [update_alert, updateFirstNamed_of_not_found _ _ _ h]
  · intro a s
    exact ⟨rfl, rfl, rfl⟩
  · intro a n
    exact ⟨rfl, rfl⟩

/-- Witness for C8 (amended): on the concrete manager, an unknown-field
request is a no-op and a request for an absent alert name is a no-op. -/
theorem c8_update_alert_amended_witness :
    update_alert c8Mgr "a" [FieldUpdate.unknown "nonexistent_field"] = c8Mgr ∧
    update_alert c8Mgr "zzz" [FieldUpdate.name "b"] = c8Mgr :=
  ⟨(c8_update_alert_amended c8Mgr "a"
      [FieldUpdate.unknown "nonexistent_field"]).1
      (by intro kw hkw; simp at hkw; subst hkw; exact ⟨_, rfl⟩),
   (c8_update_alert_amended c8Mgr "zzz" [FieldUpdate.name "b"]).2.1
      (by intro a ha; simp [c8Mgr] at ha; subst ha; simp)⟩

/-- Model of `Alert.trigger` (`backend/alerts.py`, lines 47–50): increment the
trigger counter and stamp the trigger time. -/
def Alert.trigger (a : Alert) (now : ℕ) : Alert :=
  { a with triggered_count := a.triggered_count + 1, last_triggered := some now }

/-- The `analytics_data` snapshot passed to `check_alerts`: a dict from
symbol pair to a dict from metric name to value. -/
abbrev AnalyticsData := List (String × List (String × ℚ))

/-- The continue-chain of the `check_alerts` loop for one alert: `none`
when the alert is skipped (disabled, pair missing from the snapshot,
metric missing from the pair data — `pair_data.get` returns `None` — or
condition not met), else `some` of the metric value that matched. -/
def shouldTrigger (data : AnalyticsData) (a : Alert) : Option ℚ :=
  if a.enabled = false then none
  else
    match data.lookup a.symbol_pair with
    | none => none
    | some pair_data =>
      match pair_data.lookup a.metric with
      | none => none
      | some v => if a.check v then some v else none

/-- The history event recorded for a triggering alert
(`backend/alerts.py`, lines 126–135). -/
def mkEvent (now : ℕ) (a : Alert) (v : ℚ) : AlertEvent :=
  ⟨now, a.name, a.metric, v, a.threshold, a.condition, a.symbol_pair⟩

/-- The history trim after each append: keep the last `m` events when the
history exceeds `m` (`self.alert_history[-self.max_history:]`). -/
def trimHist (m : ℕ) (h : List AlertEvent) : List AlertEvent :=
  if h.length > m then h.drop (h.length - m) else h

/-- The alert loop of `AlertManager.check_alerts` (`backend/alerts.py`,
lines 102–149).  Returns (updated alert list, updated history, triggered
alerts, emitted events); every emitted event is also passed to every
registered callback, in order. -/
def checkLoop (now : ℕ) (data : AnalyticsData) (m : ℕ) :
    List Alert → List AlertEvent →
    List Alert × List AlertEvent × List Alert × List AlertEvent
  | [], hist => ([], hist, [], [])
  | a :: rest, hist =>
    match shouldTrigger data a with
    | none =>
      let r := checkLoop now data m rest hist
      (a :: r.1, r.2.1, r.2.2.1, r.2.2.2)
    | some v =>
      let a' := a.trigger now
      let e := mkEvent now a v
      let r := checkLoop now data m rest (trimHist m (hist ++ [e]))
      (a' :: r.1, r.2.1, a' :: r.2.2.1, e :: r.2.2.2)

/-- Model of `AlertManager.check_alerts`: run the loop over the manager's alerts
and history; the second component is the returned `triggered` list, the
third the events passed to callbacks. -/
def check_alerts (mgr : AlertManager) (now : ℕ) (data : AnalyticsData) :
    AlertManager × List Alert × List AlertEvent :=
  let r := checkLoop now data mgr.max_history mgr.alerts mgr.alert_history
  ({ mgr with alerts := r.1, alert_history := r.2.1 }, r.2.2.1, r.2.2.2)

theorem checkLoop_cons_none {now : ℕ} {data : AnalyticsData} {m : ℕ}
    {a : Alert} {rest : List Alert} {hist : List AlertEvent}
    (h : shouldTrigger data a = none) :
    checkLoop now data m (a :: rest) hist =
      (a :: (checkLoop now data m rest hist).1,
       (checkLoop now data m rest hist).2.1,
       (checkLoop now data m rest hist).2.2.1,
       (checkLoop now data m rest hist).2.2.2) := by
  simp only [checkLoop, h]

theorem checkLoop_cons_some {now : ℕ} {data : AnalyticsData} {m : ℕ}
    {a : Alert} {rest : List Alert} {hist : List AlertEvent} {v : ℚ}
    (h : shouldTrigger data a = some v) :
    checkLoop now data m (a :: rest) hist =
      (a.trigger now ::
        (checkLoop now data m rest (trimHist m (hist ++ [mkEvent now a v]))).1,
       (checkLoop now data m rest (trimHist m (hist ++ [mkEvent now a v]))).2.1,
       a.trigger now ::
        (checkLoop now data m rest (trimHist m (hist ++ [mkEvent now a v]))).2.2.1,
       mkEvent now a v ::
        (checkLoop now data m rest (trimHist m (hist ++ [mkEvent now a v]))).2.2.2) := by
  simp only [checkLoop, h]

theorem checkLoop_spec (now : ℕ) (data : AnalyticsData) (m : ℕ) :
    ∀ (alerts : List Alert) (hist : List AlertEvent),
      (checkLoop now data m alerts hist).1.length = alerts.length ∧
      (∀ i a, alerts.get? i = some a → shouldTrigger data a = none →
        (checkLoop now data m alerts hist).1.get? i = some a) ∧
      (checkLoop now data m alerts hist).2.2.2 =
        (alerts.filter (fun a => (shouldTrigger data a).isSome)).map
          (fun a => mkEvent now a ((shouldTrigger data a).getD 0)) ∧
      (checkLoop now data m alerts hist).2.2.1 =
        (alerts.filter (fun a => (shouldTrigger data a).isSome)).map
          (fun a => a.trigger now) ∧
      (checkLoop now data m alerts hist).2.1 =
        ((checkLoop now data m alerts hist).2.2.2).foldl
          (fun h e => trimHist m (h ++ [e])) hist := by
  intro alerts
  induction alerts with
  | nil =>
    intro hist
    refine ⟨rfl, ?_, rfl, rfl, rfl⟩
    intro i a ha _
    simp at ha
  | cons a rest ih =>
    intro hist
    cases hst : shouldTrigger data a with
    | none =>
      obtain ⟨ihlen, ihget, ihev, ihtr, ihh⟩ := ih hist
      rw [checkLoop_cons_none hst]
      refine ⟨by simp [ihlen], ?_, ?_, ?_, ?_⟩
      · intro i a' ha' hskip
        cases i with
        | zero =>
          simp only [List.get?_cons_zero, Option.some.injEq] at ha'
          subst ha'
          rfl
        | succ i =>
          simp only [List.get?_cons_succ] at ha' ⊢
          exact ihget i a' ha' hskip
      · simp only [List.filter_cons, hst, Option.isSome_none,
          Bool.false_eq_true, if_false]
        exact ihev
      · simp only [List.filter_cons, hst, Option.isSome_none,
          Bool.false_eq_true, if_false]
        exact ihtr
      · exact ihh
    | some v =>
      obtain ⟨ihlen, ihget, ihev, ihtr, ihh⟩ :=
        ih (trimHist m (hist ++ [mkEvent now a v]))
      rw [checkLoop_cons_some hst]
      refine ⟨by simp [ihlen], ?_, ?_, ?_, ?_⟩
      · intro i a' ha' hskip
        cases i with
        | zero =>
          simp only [List.get?_cons_zero, Option.some.injEq] at ha'
          subst ha'
          rw [hskip] at hst
          exact absurd hst (by simp)
        | succ i =>
          simp only [List.get?_cons_succ] at ha' ⊢
          exact ihget i a' ha' hskip
      · simp only [List.filter_cons, hst, Option.isSome_some, if_true,
          List.map_cons, Option.getD_some]
        rw [ihev]
      · simp only [List.filter_cons, hst, Option.isSome_some, if_true,
          List.map_cons]
        rw [ihtr]
      · simp only [List.foldl_cons]
        exact ihh

/-- C10: `check_alerts` mutates only the alerts that trigger: an alert
whose skip condition holds (disabled, symbol pair absent from the
snapshot, metric absent from the pair data, or condition unmet) is left
unchanged at its position — `triggered_count` and `last_triggered`
included — and the triggered list, the emitted-event list (what every
callback receives) and the history growth are determined exactly by the
non-skipped alerts. -/
theorem c10_check_alerts_frame (mgr : AlertManager) (now : ℕ)
    (data : AnalyticsData) :
    ((check_alerts mgr now data).1.alerts.length = mgr.alerts.length) ∧
    (∀ i a, mgr.alerts.get? i = some a → shouldTrigger data a = none →
      (check_alerts mgr now data).1.alerts.get? i = some a) ∧
    ((check_alerts mgr now data).2.2 =
      (mgr.alerts.filter (fun a => (shouldTrigger data a).isSome)).map
        (fun a => mkEvent now a ((shouldTrigger data a).getD 0))) ∧
    ((check_alerts mgr now data).2.1 =
      (mgr.alerts.filter (fun a => (shouldTrigger data a).isSome)).map
        (fun a => a.trigger now)) ∧
    ((check_alerts mgr now data).1.alert_history =
      ((check_alerts mgr now data).2.2).foldl
        (fun h e => trimHist mgr.max_history (h ++ [e])) mgr.alert_history) := by
  obtain ⟨hlen, hget, hev, htr, hh⟩ :=
    checkLoop_spec now data mgr.max_history mgr.alerts mgr.alert_history
  simp only [check_alerts]
  exact ⟨hlen, hget, hev, htr, hh⟩

/-- The one-alert manager of the C10 witness: a disabled alert. -/
def c10Mgr : AlertManager :=
  ⟨[⟨"a", "greater", "z_score", 1, "p", false, 3, some 7⟩], [], 100⟩

/-- Witness for C10: with a disabled alert and an empty snapshot, the
alert is returned unchanged at its position. -/
theorem c10_check_alerts_frame_witness :
    (check_alerts c10Mgr 5 []).1.alerts.get? 0 =
      some ⟨"a", "greater", "z_score", 1, "p", false, 3, some 7⟩ :=
  (c10_check_alerts_frame c10Mgr 5 []).2.1 0
    ⟨"a", "greater", "z_score", 1, "p", false, 3, some 7⟩ rfl rfl

end QuantApp
